import Mathlib

/-!
Verification development for the persona-driven evaluation engine
(components/active_persona.py and components/evaluator.py).

The Python source is shallowly embedded below.  External collaborators
(file system, Whisper transcription, the chat-completion backend, the
standard json module and the wall clock) are modelled as oracles bundled
in an `Env` record; everything the repository itself implements
(message normalization, conversation state, the trial loop, brace-depth
JSON extraction, dict merge semantics) is translated directly from the
source.
-/

/-- JSON values as produced by the json module oracle.  Numbers are
modelled as integers, which covers every value the development needs. -/
inductive JsonValue where
  | null : JsonValue
  | bool : Bool → JsonValue
  | num : Int → JsonValue
  | str : String → JsonValue
  | arr : List JsonValue → JsonValue
  | obj : List (String × JsonValue) → JsonValue

/-- A parsed JSON object / Python dict: insertion-ordered key-value pairs. -/
abbrev JsonObj := List (String × JsonValue)

/-- Roles of conversation turns. -/
inductive Role where
  | system : Role
  | user : Role
  | assistant : Role
deriving DecidableEq

/-- Content parts as stored in the message history after normalization:
either a text part or an inline base64 image part
(dicts of shape type/text resp. type/image_url in the source). -/
inductive ProcessedPart where
  | text : String → ProcessedPart
  | imageUrl : String → ProcessedPart
deriving DecidableEq

/-- Content of one history turn: a raw string (the system prompt, which
may be Python None, or an assistant completion) or a list of parts. -/
inductive TurnContent where
  | str : Option String → TurnContent
  | parts : List ProcessedPart → TurnContent
deriving DecidableEq

/-- One turn of the conversation history. -/
structure Turn where
  role : Role
  content : TurnContent
deriving DecidableEq

/-- Input elements accepted by ActivePersona.interact: a bare string, a
dict tagged text, image or audio, or any other value (a dict with an
unrecognized or missing type tag, or a non-string non-dict value). -/
inductive MsgPart where
  | str : String → MsgPart
  | textPart : String → MsgPart
  | imagePart : String → MsgPart
  | audioPart : String → MsgPart
  | other : MsgPart
deriving DecidableEq

/-- Python exceptions that can escape ActivePersona.interact. -/
inductive PersonaError where
  | fileNotFound : String → PersonaError
  | attributeError : String → PersonaError
  | transcriptionError : String → PersonaError
  | backendError : String → PersonaError
deriving DecidableEq

/-- Oracles for the external collaborators.  `invoke` additionally takes
the number of previous backend calls, so that a stateful test stub
(such as one that fails only on the second call) is expressible. -/
structure Env where
  now : String
  os_path_exists : String → Bool
  readB64 : String → Option String
  transcribe : String → Except String String
  invoke : Nat → List Turn → Except String String
  json_loads : String → Except String JsonObj

/-- State of one ActivePersona instance.  The llm_client collaborator is
represented by its model_name datum (its invoke behavior lives in Env).
`whisper_transcriber` is an optional attribute: `none` means the
attribute was never assigned, so reading it raises AttributeError,
exactly as in Python; no code path of the repository ever assigns it. -/
structure ActivePersona where
  name : String
  model_name : String
  system_prompt : Option String
  whisper_transcriber : Option Unit
  message_history : List Turn

/-- ActivePersona.reset_history: clear the history to a single system
turn holding the stored system prompt. -/
def ActivePersona.reset_history (p : ActivePersona) : ActivePersona :=
  { p with message_history := [{ role := Role.system, content := TurnContent.str p.system_prompt }] }

/-- ActivePersona.__init__: store the identity data, leave
whisper_transcriber unassigned, and reset the history. -/
def ActivePersona.init (name model_name : String) (system_prompt : Option String) : ActivePersona :=
  ActivePersona.reset_history
    { name := name, model_name := model_name, system_prompt := system_prompt,
      whisper_transcriber := none, message_history := [] }

/-- Normalization of one element of the messages list, following the
branches of the for-loop in ActivePersona.interact.  A bare string and a
text dict pass through as a text part; an image dict is read from disk
and inline-encoded, raising FileNotFoundError when the file is absent;
an audio dict reads self.whisper_transcriber (AttributeError when the
attribute is unassigned) and transcribes, re-raising transcription
errors; every other element matches no branch and contributes nothing. -/
def processPart (env : Env) (tw : Option Unit) : MsgPart → Except PersonaError (List ProcessedPart)
  | MsgPart.str s => Except.ok [ProcessedPart.text s]
  | MsgPart.textPart s => Except.ok [ProcessedPart.text s]
  | MsgPart.imagePart path =>
    match env.readB64 path with
    | none => Except.error (PersonaError.fileNotFound path)
    | some b64 => Except.ok [ProcessedPart.imageUrl ("data:image/jpeg;base64," ++ b64)]
  | MsgPart.audioPart path =>
    match tw with
    | none => Except.error (PersonaError.attributeError "whisper_transcriber")
    | some _ =>
      match env.transcribe path with
      | Except.error e => Except.error (PersonaError.transcriptionError e)
      | Except.ok t => Except.ok [ProcessedPart.text t]
  | MsgPart.other => Except.ok []

/-- Sequential normalization of the whole messages list; the first
raising element aborts the loop, discarding the local buffer. -/
def processParts (env : Env) (tw : Option Unit) : List MsgPart → Except PersonaError (List ProcessedPart)
  | [] => Except.ok []
  | m :: rest =>
    match processPart env tw m with
    | Except.error e => Except.error e
    | Except.ok xs =>
      match processParts env tw rest with
      | Except.error e => Except.error e
      | Except.ok ys => Except.ok (xs ++ ys)

/-- ActivePersona.interact on a list of messages.  `c` counts previous
backend calls.  Normalization failure raises before any history
mutation; then the user turn is appended, the backend is invoked with
the full history, backend failure is re-raised with the user turn kept,
and on success the assistant turn is appended and the raw text returned. -/
def ActivePersona.interact (env : Env) (p : ActivePersona) (c : Nat) (messages : List MsgPart) :
    Except PersonaError String × ActivePersona × Nat :=
  match processParts env p.whisper_transcriber messages with
  | Except.error e => (Except.error e, p, c)
  | Except.ok pms =>
    let hist1 := p.message_history ++ [{ role := Role.user, content := TurnContent.parts pms }]
    let p1 := { p with message_history := hist1 }
    match env.invoke c hist1 with
    | Except.error e => (Except.error (PersonaError.backendError e), p1, c + 1)
    | Except.ok resp =>
      (Except.ok resp,
       { p1 with message_history := hist1 ++ [{ role := Role.assistant, content := TurnContent.str (some resp) }] },
       c + 1)

/-- Failure conditions of EvaluatorBase._extract_json. -/
inductive ExtractError where
  | noJsonFound : ExtractError
  | incompleteJson : ExtractError
deriving DecidableEq

/-- The suffix of the character list starting at the first opening
brace, i.e. group 1 of the regex search for an opening brace followed by
anything, with DOTALL; `none` when no opening brace occurs. -/
def suffixFromBrace : List Char → Option (List Char)
  | [] => none
  | c :: rest => if c = '{' then some (c :: rest) else suffixFromBrace rest

/-- The brace-depth scan of EvaluatorBase._extract_json: walk the
characters keeping a stack depth, push on an opening brace, pop on a
closing brace, and return the consumed prefix the moment the stack
empties.  The depth-zero closing-brace case is a pop from an empty
stack (IndexError in Python); it is unreachable from _extract_json,
whose scan starts at an opening brace. -/
def braceScan : List Char → Nat → List Char → Option (List Char)
  | [], _, _ => none
  | c :: rest, depth, acc =>
    if c = '{' then braceScan rest (depth + 1) (acc ++ [c])
    else if c = '}' then
      match depth with
      | 0 => none
      | 1 => some (acc ++ [c])
      | d + 2 => braceScan rest (d + 1) (acc ++ [c])
    else braceScan rest depth (acc ++ [c])

/-- EvaluatorBase._extract_json: locate the first opening brace (no
brace raises the no-JSON ValueError), then brace-scan from there (an
unclosed object raises the incomplete-JSON ValueError). -/
def _extract_json (text : String) : Except ExtractError String :=
  match suffixFromBrace text.toList with
  | none => Except.error ExtractError.noJsonFound
  | some json_part =>
    match braceScan json_part 0 [] with
    | some s => Except.ok (String.mk s)
    | none => Except.error ExtractError.incompleteJson

/-- Python dict lookup on the ordered-pairs model. -/
def dictGet (d : JsonObj) (k : String) : Option JsonValue :=
  (d.find? (fun kv => kv.1 == k)).map (fun kv => kv.2)

/-- Python dict single-key assignment: replace the value in place when
the key exists, append the pair otherwise. -/
def dictInsert (d : JsonObj) (k : String) (v : JsonValue) : JsonObj :=
  if d.any (fun kv => kv.1 == k) then
    d.map (fun kv => if kv.1 == k then (k, v) else kv)
  else d ++ [(k, v)]

/-- Python dict.update: assign every pair of `u` into `d` in order. -/
def dictUpdate (d u : JsonObj) : JsonObj :=
  u.foldl (fun acc kv => dictInsert acc kv.1 kv.2) d

/-- Per-trial failure conditions caught at the trial boundary of
EvaluatorBase.evaluate. -/
inductive TrialError where
  | personaError : PersonaError → TrialError
  | noJsonFound : TrialError
  | incompleteJson : TrialError
  | malformedJson : String → TrialError
  | preprocessError : String → TrialError
deriving DecidableEq

/-- State of one EvaluatorBase instance.  The subclass-overridable
_preprocess_entry hook is carried as a function that may raise; the
default implementation returns its argument unchanged. -/
structure EvaluatorBase where
  evaluation_prompt : String
  auto_reset : Bool
  images_paths : List String
  _preprocess_entry : JsonObj → Except String JsonObj

/-- EvaluatorBase._prepare_evaluation_messages: the instruction text
followed by the image paths that exist on disk (missing ones are logged
and dropped). -/
def EvaluatorBase._prepare_evaluation_messages (env : Env) (ev : EvaluatorBase) : List MsgPart :=
  MsgPart.textPart ev.evaluation_prompt :: (ev.images_paths.filter env.os_path_exists).map MsgPart.imagePart

/-- The iteration-count clamp at the top of EvaluatorBase.evaluate. -/
def clampIterations (iterations : Int) : Nat :=
  if iterations < 1 then 1 else iterations.toNat

/-- The base record built once per evaluate call: call-time timestamp,
persona name and backend model label. -/
def entry_template (env : Env) (p : ActivePersona) : JsonObj :=
  [("timestamp", JsonValue.str env.now),
   ("persona_name", JsonValue.str p.name),
   ("model", JsonValue.str p.model_name)]

/-- The optional reset at the top of one trial. -/
def trialPersona (ev : EvaluatorBase) (p : ActivePersona) : ActivePersona :=
  if ev.auto_reset then ActivePersona.reset_history p else p

/-- The body of one trial of EvaluatorBase.evaluate: optional reset,
interact, extract, parse via the json module oracle, preprocess.  The
result is the processed object or the condition that aborted the trial,
together with the mutated persona state and backend-call count. -/
def runTrial (env : Env) (ev : EvaluatorBase) (msgs : List MsgPart) (st : ActivePersona × Nat) :
    Except TrialError JsonObj × ActivePersona × Nat :=
  match ActivePersona.interact env (trialPersona ev st.1) st.2 msgs with
  | (Except.error e, p', c') => (Except.error (TrialError.personaError e), p', c')
  | (Except.ok resp, p', c') =>
    match _extract_json resp with
    | Except.error ExtractError.noJsonFound => (Except.error TrialError.noJsonFound, p', c')
    | Except.error ExtractError.incompleteJson => (Except.error TrialError.incompleteJson, p', c')
    | Except.ok cand =>
      match env.json_loads cand with
      | Except.error m => (Except.error (TrialError.malformedJson m), p', c')
      | Except.ok obj =>
        match ev._preprocess_entry obj with
        | Except.error m => (Except.error (TrialError.preprocessError m), p', c')
        | Except.ok processed => (Except.ok processed, p', c')

/-- The trial loop of EvaluatorBase.evaluate: a failing trial is logged
and skipped, a successful trial merges the processed object over a copy
of the base record and appends it to the results. -/
def evalLoop (env : Env) (ev : EvaluatorBase) (msgs : List MsgPart) (tmpl : JsonObj) :
    Nat → ActivePersona × Nat → List JsonObj × ActivePersona × Nat
  | 0, st => ([], st.1, st.2)
  | n + 1, st =>
    match runTrial env ev msgs st with
    | (Except.error _, p', c') => evalLoop env ev msgs tmpl n (p', c')
    | (Except.ok obj, p', c') =>
      let rest := evalLoop env ev msgs tmpl n (p', c')
      (dictUpdate tmpl obj :: rest.1, rest.2)

/-- EvaluatorBase.evaluate: clamp the iteration count, build the prompt
parts and the base record once, then run the trial loop. -/
def EvaluatorBase.evaluate (env : Env) (ev : EvaluatorBase) (p : ActivePersona) (c : Nat)
    (iterations : Int) : List JsonObj × ActivePersona × Nat :=
  evalLoop env ev (EvaluatorBase._prepare_evaluation_messages env ev) (entry_template env p)
    (clampIterations iterations) (p, c)

/-- Base test environment: no files on disk, no working collaborators,
a json module oracle that parses the two object literals used by the
concrete scenarios below and rejects everything else. -/
def envBase : Env :=
  { now := "2025-01-01T00:00:00"
    os_path_exists := fun _ => false
    readB64 := fun _ => none
    transcribe := fun _ => Except.error "whisper unavailable"
    invoke := fun _ _ => Except.error "backend unavailable"
    json_loads := fun s =>
      if s = "\x7b\"q01\": 5\x7d" then Except.ok [("q01", JsonValue.num 5)]
      else if s = "\x7b\"timestamp\": \"HACK\"\x7d" then
        Except.ok [("timestamp", JsonValue.str "HACK")]
      else Except.error "Expecting value: line 1 column 1 (char 0)" }

/-- Backend stub that always answers with an object that redefines the
timestamp key. -/
def envTimestampHack : Env :=
  { envBase with invoke := fun _ _ => Except.ok "\x7b\"timestamp\": \"HACK\"\x7d" }

/-- Backend stub that fails JSON parsing on its second call (trial 2)
and answers with a well-formed object on every other call. -/
def envFailSecond : Env :=
  { envBase with invoke := fun c _ =>
      if c = 1 then Except.ok "\x7b broken \x7d" else Except.ok "\x7b\"q01\": 5\x7d" }

/-- Backend stub that always answers with a well-formed object. -/
def envGoodJson : Env :=
  { envBase with invoke := fun _ _ => Except.ok "\x7b\"q01\": 5\x7d" }

/-- Backend stub whose answers contain an object candidate that fails
to parse. -/
def envBrokenJson : Env :=
  { envBase with invoke := fun _ _ => Except.ok "\x7b broken \x7d" }

/-- Environment whose transcription collaborator works. -/
def envWorkingWhisper : Env :=
  { envBase with transcribe := fun _ => Except.ok "What do you think of this interface?" }

/-- A freshly constructed persona. -/
def persona0 : ActivePersona := ActivePersona.init "Alice" "gpt-test" (some "You are Alice.")

/-- An evaluator with the default auto-reset and the default identity
preprocessing hook. -/
def evalDefault : EvaluatorBase :=
  { evaluation_prompt := "Rate the UI.", auto_reset := true, images_paths := []
    _preprocess_entry := fun o => Except.ok o }

/-- The same evaluator with auto-reset disabled. -/
def evalNoReset : EvaluatorBase := { evalDefault with auto_reset := false }

/-- Modelled from the spec, for comparison with _extract_json: the
brace delta of one character (increment on an opening brace, decrement
on a closing brace). -/
def braceDelta (c : Char) : Int :=
  if c = '{' then 1 else if c = '}' then -1 else 0

/-- Modelled from the spec: the value of the depth counter after
scanning a character list. -/
def depthAt (cs : List Char) : Int :=
  (cs.map braceDelta).sum

/-- Modelled from the spec: the length of the candidate substring, i.e.
the first positive position at which the depth counter returns to
zero while scanning forward from the first opening brace. -/
def specCandidateLen (cs : List Char) : Option Nat :=
  (List.range (cs.length + 1)).find? (fun n => decide (0 < n ∧ depthAt (cs.take n) = 0))

/-- Modelled from the spec, for comparison with _extract_json: locate
the first opening brace, fail with the no-JSON condition when there is
none, otherwise return the substring from that brace through the
position where the depth counter first returns to zero, failing with
the incomplete-JSON condition when the counter never does. -/
def extract_json_spec (text : String) : Except ExtractError String :=
  match suffixFromBrace text.toList with
  | none => Except.error ExtractError.noJsonFound
  | some cs =>
    match specCandidateLen cs with
    | some n => Except.ok (String.mk (cs.take n))
    | none => Except.error ExtractError.incompleteJson

theorem processParts_append (env : Env) (tw : Option Unit) (xs ys : List MsgPart) :
    processParts env tw (xs ++ ys) =
      match processParts env tw xs with
      | Except.error e => Except.error e
      | Except.ok a =>
        match processParts env tw ys with
        | Except.error e => Except.error e
        | Except.ok b => Except.ok (a ++ b) := by
  induction xs with
  | nil =>
    simp only [List.nil_append, processParts]
    cases processParts env tw ys <;> simp
  | cons m xs ih =>
    simp only [List.cons_append, processParts, List.append_eq]
    cases hm : processPart env tw m with
    | error e => rfl
    | ok a =>
      rw [ih]
      cases hx : processParts env tw xs with
      | error e => rfl
      | ok b =>
        cases hy : processParts env tw ys with
        | error e => rfl
        | ok d => simp [List.append_assoc]

theorem interact_of_processParts_error (env : Env) (p : ActivePersona) (c : Nat)
    (msgs : List MsgPart) (e : PersonaError)
    (h : processParts env p.whisper_transcriber msgs = Except.error e) :
    ActivePersona.interact env p c msgs = (Except.error e, p, c) := by
  simp [ActivePersona.interact, h]

/-- C2: the claim says every audio part is transcribed via the external
Transcription collaborator into a Text part, failing only with a
transcription-failure condition.  The code instead reads the
whisper_transcriber attribute, which __init__ never assigns, so every
audio part raises AttributeError even when the transcription
collaborator works, before any transcription is attempted; the class
docstring and the shipped WhisperTranscriber component show the claim is
the intent and the missing assignment a slip in the code. -/
theorem audio_part_always_raises_attribute_error :
    ActivePersona.interact envWorkingWhisper persona0 0 [MsgPart.audioPart "question.wav"] =
      (Except.error (PersonaError.attributeError "whisper_transcriber"), persona0, 0) ∧
    envWorkingWhisper.transcribe "question.wav" =
      Except.ok "What do you think of this interface?" ∧
    persona0.whisper_transcriber = none :=
  ⟨rfl, rfl, rfl⟩

/-- C5 counterexample: a parts list that contains an image part with an
absent file but starts with an audio part fails with AttributeError,
not with the missing-file condition, refuting the claim for arbitrary
parts lists (the state is still left unchanged). -/
theorem interact_missing_image_after_audio_not_resource_not_found :
    ActivePersona.interact envBase persona0 0
        [MsgPart.audioPart "q.wav", MsgPart.imagePart "/nonexistent.png"] =
      (Except.error (PersonaError.attributeError "whisper_transcriber"), persona0, 0) ∧
    envBase.readB64 "/nonexistent.png" = none ∧
    PersonaError.attributeError "whisper_transcriber" ≠
      PersonaError.fileNotFound "/nonexistent.png" :=
  ⟨rfl, rfl, by decide⟩

/-- C5 amended: if every part before the absent-file image part
normalizes successfully, interact fails with the FileNotFoundError
condition and leaves the conversation state exactly as it was; in
general every normalization failure leaves the state unchanged (parts
normalized before the failing one are never committed to the history). -/
theorem interact_missing_image_state_unchanged :
    (∀ (env : Env) (p : ActivePersona) (c : Nat) (pre : List MsgPart) (path : String)
       (post : List MsgPart) (l : List ProcessedPart),
       processParts env p.whisper_transcriber pre = Except.ok l →
       env.readB64 path = none →
       ActivePersona.interact env p c (pre ++ MsgPart.imagePart path :: post) =
         (Except.error (PersonaError.fileNotFound path), p, c)) ∧
    (∀ (env : Env) (p : ActivePersona) (c : Nat) (msgs : List MsgPart) (e : PersonaError),
       processParts env p.whisper_transcriber msgs = Except.error e →
       ActivePersona.interact env p c msgs = (Except.error e, p, c)) := by
  constructor
  · intro env p c pre path post l hpre hpath
    apply interact_of_processParts_error
    rw [processParts_append, hpre]
    simp [processParts, processPart, hpath]
  · intro env p c msgs e h
    exact interact_of_processParts_error env p c msgs e h

/-- C5 witness: the amended theorem applied at a concrete input. -/
theorem interact_missing_image_state_unchanged_witness :
    ActivePersona.interact envBase persona0 0
        [MsgPart.textPart "Rate the UI.", MsgPart.imagePart "/nonexistent.png"] =
      (Except.error (PersonaError.fileNotFound "/nonexistent.png"), persona0, 0) :=
  interact_missing_image_state_unchanged.1 envBase persona0 0
    [MsgPart.textPart "Rate the UI."] "/nonexistent.png" []
    [ProcessedPart.text "Rate the UI."] rfl rfl

/-- C6: when the backend call fails, the failure propagates unchanged
out of interact, the conversation state keeps the newly appended user
turn, and no assistant turn is added, so a later interact continues
from a history recording the unanswered user turn. -/
theorem interact_backend_failure_keeps_user_turn :
    ∀ (env : Env) (p : ActivePersona) (c : Nat) (msgs : List MsgPart)
      (pms : List ProcessedPart) (m : String),
      processParts env p.whisper_transcriber msgs = Except.ok pms →
      env.invoke c (p.message_history ++
          [{ role := Role.user, content := TurnContent.parts pms }]) = Except.error m →
      ActivePersona.interact env p c msgs =
        (Except.error (PersonaError.backendError m),
         { p with message_history := p.message_history ++
             [{ role := Role.user, content := TurnContent.parts pms }] },
         c + 1) := by
  intro env p c msgs pms m h1 h2
  simp [ActivePersona.interact, h1, h2]

/-- C6 witness: the theorem applied at a concrete input with a failing
backend stub. -/
theorem interact_backend_failure_keeps_user_turn_witness :
    ActivePersona.interact envBase persona0 0 [MsgPart.textPart "Rate the UI."] =
      (Except.error (PersonaError.backendError "backend unavailable"),
       { persona0 with message_history := persona0.message_history ++
           [{ role := Role.user, content := TurnContent.parts [ProcessedPart.text "Rate the UI."] }] },
       1) :=
  interact_backend_failure_keeps_user_turn envBase persona0 0
    [MsgPart.textPart "Rate the UI."] [ProcessedPart.text "Rate the UI."] "backend unavailable"
    rfl rfl

theorem interact_ok_shape (env : Env) (p : ActivePersona) (c : Nat) (msgs : List MsgPart)
    (resp : String) (p' : ActivePersona) (c' : Nat)
    (h : ActivePersona.interact env p c msgs = (Except.ok resp, p', c')) :
    ∃ pms, processParts env p.whisper_transcriber msgs = Except.ok pms ∧
      env.invoke c (p.message_history ++
        [{ role := Role.user, content := TurnContent.parts pms }]) = Except.ok resp ∧
      p' = { p with message_history := p.message_history ++
          [{ role := Role.user, content := TurnContent.parts pms },
           { role := Role.assistant, content := TurnContent.str (some resp) }] } ∧
      c' = c + 1 := by
  cases hp : processParts env p.whisper_transcriber msgs with
  | error e =>
    rw [interact_of_processParts_error env p c msgs e hp] at h
    simp at h
  | ok pms =>
    refine ⟨pms, rfl, ?_⟩
    simp only [ActivePersona.interact, hp] at h
    cases hi : env.invoke c (p.message_history ++
        [{ role := Role.user, content := TurnContent.parts pms }]) with
    | error e => rw [hi] at h; simp at h
    | ok r =>
      rw [hi] at h
      simp only [Prod.mk.injEq, Except.ok.injEq] at h
      obtain ⟨h1, h2, h3⟩ := h
      subst h1
      refine ⟨rfl, ?_, h3.symm⟩
      rw [← h2]
      simp [List.append_assoc]

theorem runTrial_ok_inv (env : Env) (ev : EvaluatorBase) (msgs : List MsgPart)
    (st : ActivePersona × Nat) (obj : JsonObj) (p' : ActivePersona) (c' : Nat)
    (h : runTrial env ev msgs st = (Except.ok obj, p', c')) :
    ∃ resp cand parsed,
      ActivePersona.interact env (trialPersona ev st.1) st.2 msgs = (Except.ok resp, p', c') ∧
      _extract_json resp = Except.ok cand ∧
      env.json_loads cand = Except.ok parsed ∧
      ev._preprocess_entry parsed = Except.ok obj := by
  simp only [runTrial] at h
  rcases hi : ActivePersona.interact env (trialPersona ev st.1) st.2 msgs with ⟨res, q, d⟩
  rw [hi] at h
  cases res with
  | error e => dsimp only at h; simp at h
  | ok resp =>
    dsimp only at h
    cases he : _extract_json resp with
    | error err => cases err <;> rw [he] at h <;> dsimp only at h <;> simp at h
    | ok cand =>
      rw [he] at h
      dsimp only at h
      cases hl : env.json_loads cand with
      | error m => rw [hl] at h; dsimp only at h; simp at h
      | ok parsed =>
        rw [hl] at h
        dsimp only at h
        cases hpp : ev._preprocess_entry parsed with
        | error m => rw [hpp] at h; dsimp only at h; simp at h
        | ok processed =>
          rw [hpp] at h
          dsimp only at h
          simp only [Prod.mk.injEq, Except.ok.injEq] at h
          obtain ⟨h1, h2, h3⟩ := h
          exact ⟨resp, cand, parsed, by subst h2; subst h3; rfl, he, hl,
            by rw [hpp, h1]⟩

theorem take_append_length_succ {α : Type} (l t : List α) :
    (l ++ t).take (l.length + 1) = l ++ t.take 1 := by
  induction l with
  | nil => rfl
  | cons x l ih => simp [List.take_succ_cons, ih]

theorem processParts_all_other (env : Env) (tw : Option Unit) :
    ∀ msgs : List MsgPart, (∀ m ∈ msgs, m = MsgPart.other) →
      processParts env tw msgs = Except.ok [] := by
  intro msgs
  induction msgs with
  | nil => intro _; rfl
  | cons m rest ih =>
    intro hall
    have hm := hall m (List.mem_cons_self m rest)
    subst hm
    have hr := ih (fun x hx => hall x (List.mem_cons_of_mem _ hx))
    simp [processParts, processPart, hr]

/-- C10: every element of the parts list that is neither a string nor a
dict tagged text, image or audio is silently dropped from the
normalized user turn (removing it from the list does not change
normalization), and a call whose parts are all unrecognized still
appends a user turn with an empty content list and still invokes the
backend (the backend call counter advances). -/
theorem interact_unrecognized_parts_dropped :
    (∀ (env : Env) (tw : Option Unit) (pre post : List MsgPart),
       processParts env tw (pre ++ MsgPart.other :: post) = processParts env tw (pre ++ post)) ∧
    (∀ (env : Env) (p : ActivePersona) (c : Nat) (msgs : List MsgPart),
       (∀ m ∈ msgs, m = MsgPart.other) →
       processParts env p.whisper_transcriber msgs = Except.ok [] ∧
       (ActivePersona.interact env p c msgs).2.2 = c + 1 ∧
       (ActivePersona.interact env p c msgs).2.1.message_history.take
           (p.message_history.length + 1) =
         p.message_history ++ [{ role := Role.user, content := TurnContent.parts [] }]) := by
  constructor
  · have hop : ∀ (env : Env) (tw : Option Unit) (post : List MsgPart),
        processParts env tw (MsgPart.other :: post) = processParts env tw post := by
      intro env tw post
      simp only [processParts, processPart]
      cases processParts env tw post <;> simp
    intro env tw pre post
    rw [processParts_append, hop, ← processParts_append]
  · intro env p c msgs hall
    have hpp := processParts_all_other env p.whisper_transcriber msgs hall
    refine ⟨hpp, ?_, ?_⟩ <;>
      simp only [ActivePersona.interact, hpp] <;>
      cases hi : env.invoke c (p.message_history ++
        [{ role := Role.user, content := TurnContent.parts [] }]) <;>
      simp [hi, take_append_length_succ]

/-- C10 witness: the theorem applied at concrete inputs, one with an
unrecognized element between recognized ones, one with only
unrecognized elements. -/
theorem interact_unrecognized_parts_dropped_witness :
    processParts envBase none
        ([MsgPart.textPart "hi"] ++ MsgPart.other :: [MsgPart.textPart "bye"]) =
      processParts envBase none ([MsgPart.textPart "hi"] ++ [MsgPart.textPart "bye"]) ∧
    processParts envBase persona0.whisper_transcriber [MsgPart.other, MsgPart.other] =
      Except.ok [] ∧
    (ActivePersona.interact envBase persona0 0 [MsgPart.other, MsgPart.other]).2.2 = 0 + 1 ∧
    (ActivePersona.interact envBase persona0 0
        [MsgPart.other, MsgPart.other]).2.1.message_history.take
        (persona0.message_history.length + 1) =
      persona0.message_history ++ [{ role := Role.user, content := TurnContent.parts [] }] :=
  ⟨interact_unrecognized_parts_dropped.1 envBase none [MsgPart.textPart "hi"]
     [MsgPart.textPart "bye"],
   interact_unrecognized_parts_dropped.2 envBase persona0 0 [MsgPart.other, MsgPart.other]
     (by decide)⟩

/-- C9: with auto-reset enabled, the conversation state at the moment a
trial appends its user turn is exactly one system turn holding the
system prompt; with auto-reset disabled, a successful trial grows the
conversation state by exactly two turns, the user turn and the
assistant turn. -/
theorem evaluate_auto_reset_semantics :
    (∀ (ev : EvaluatorBase) (p : ActivePersona), ev.auto_reset = true →
       (trialPersona ev p).message_history =
         [{ role := Role.system, content := TurnContent.str p.system_prompt }]) ∧
    (∀ (env : Env) (ev : EvaluatorBase) (msgs : List MsgPart) (p : ActivePersona) (c : Nat)
       (obj : JsonObj) (p' : ActivePersona) (c' : Nat),
       ev.auto_reset = false →
       runTrial env ev msgs (p, c) = (Except.ok obj, p', c') →
       ∃ pms resp,
         p'.message_history = p.message_history ++
           [{ role := Role.user, content := TurnContent.parts pms },
            { role := Role.assistant, content := TurnContent.str (some resp) }] ∧
         p'.message_history.length = p.message_history.length + 2) := by
  constructor
  · intro ev p h
    simp [trialPersona, h, ActivePersona.reset_history]
  · intro env ev msgs p c obj p' c' har hrt
    obtain ⟨resp, cand, parsed, hi, _, _, _⟩ :=
      runTrial_ok_inv env ev msgs (p, c) obj p' c' hrt
    rw [show trialPersona ev (p, c).1 = p by simp [trialPersona, har]] at hi
    obtain ⟨pms, _, _, hp', _⟩ := interact_ok_shape env p (p, c).2 msgs resp p' c' hi
    exact ⟨pms, resp, by rw [hp'], by rw [hp']; simp⟩

/-- C9 witness: the theorem applied at concrete inputs, with auto-reset
enabled for the first part and disabled for the second. -/
theorem evaluate_auto_reset_semantics_witness :
    (trialPersona evalDefault persona0).message_history =
      [{ role := Role.system, content := TurnContent.str persona0.system_prompt }] ∧
    ∃ pms resp,
      ((runTrial envGoodJson evalNoReset [MsgPart.textPart "Rate the UI."]
          (persona0, 0)).2.1).message_history =
        persona0.message_history ++
          [{ role := Role.user, content := TurnContent.parts pms },
           { role := Role.assistant, content := TurnContent.str (some resp) }] ∧
      ((runTrial envGoodJson evalNoReset [MsgPart.textPart "Rate the UI."]
          (persona0, 0)).2.1).message_history.length =
        persona0.message_history.length + 2 :=
  ⟨evaluate_auto_reset_semantics.1 evalDefault persona0 rfl,
   evaluate_auto_reset_semantics.2 envGoodJson evalNoReset [MsgPart.textPart "Rate the UI."]
     persona0 0 [("q01", JsonValue.num 5)]
     (runTrial envGoodJson evalNoReset [MsgPart.textPart "Rate the UI."] (persona0, 0)).2.1
     (runTrial envGoodJson evalNoReset [MsgPart.textPart "Rate the UI."] (persona0, 0)).2.2
     rfl rfl⟩

/-- C3: every condition raised inside one trial is contained at the
trial boundary: a failing trial contributes nothing and the loop simply
continues on the remaining iterations; concretely, with the backend
stub that fails JSON parsing on trial 2 of 3 and succeeds on trials 1
and 3, evaluate returns exactly two records tagged with the persona and
model metadata. -/
theorem evaluate_failure_isolation :
    (∀ (env : Env) (ev : EvaluatorBase) (msgs : List MsgPart) (tmpl : JsonObj)
       (st : ActivePersona × Nat) (e : TrialError) (p' : ActivePersona) (c' : Nat) (n : Nat),
       runTrial env ev msgs st = (Except.error e, p', c') →
       evalLoop env ev msgs tmpl (n + 1) st = evalLoop env ev msgs tmpl n (p', c')) ∧
    (EvaluatorBase.evaluate envFailSecond evalDefault persona0 0 3).1 =
      [[("timestamp", JsonValue.str "2025-01-01T00:00:00"),
        ("persona_name", JsonValue.str "Alice"),
        ("model", JsonValue.str "gpt-test"),
        ("q01", JsonValue.num 5)],
       [("timestamp", JsonValue.str "2025-01-01T00:00:00"),
        ("persona_name", JsonValue.str "Alice"),
        ("model", JsonValue.str "gpt-test"),
        ("q01", JsonValue.num 5)]] := by
  constructor
  · intro env ev msgs tmpl st e p' c' n h
    simp only [evalLoop]
    rw [h]
  · rfl

/-- C3 witness: the containment part applied at the concrete failing
trial (the second backend call) of the spec scenario. -/
theorem evaluate_failure_isolation_witness :
    evalLoop envFailSecond evalDefault
        (EvaluatorBase._prepare_evaluation_messages envFailSecond evalDefault)
        (entry_template envFailSecond persona0) 1 (persona0, 1) =
      evalLoop envFailSecond evalDefault
        (EvaluatorBase._prepare_evaluation_messages envFailSecond evalDefault)
        (entry_template envFailSecond persona0) 0
        ((runTrial envFailSecond evalDefault
            (EvaluatorBase._prepare_evaluation_messages envFailSecond evalDefault)
            (persona0, 1)).2.1,
         (runTrial envFailSecond evalDefault
            (EvaluatorBase._prepare_evaluation_messages envFailSecond evalDefault)
            (persona0, 1)).2.2) :=
  evaluate_failure_isolation.1 envFailSecond evalDefault
    (EvaluatorBase._prepare_evaluation_messages envFailSecond evalDefault)
    (entry_template envFailSecond persona0) (persona0, 1)
    (TrialError.malformedJson "Expecting value: line 1 column 1 (char 0)") _ _ 0 rfl

theorem suffixFromBrace_eq_none (cs : List Char) (h : '{' ∉ cs) :
    suffixFromBrace cs = none := by
  induction cs with
  | nil => rfl
  | cons c rest ih =>
    simp only [List.mem_cons, not_or] at h
    have hc : ¬ (c = '{') := fun hh => h.1 hh.symm
    simp only [suffixFromBrace, if_neg hc]
    exact ih h.2

/-- C8: when the raw text contains no opening brace, extraction fails
with the no-JSON-found condition (in particular on the concrete text of
the spec); when a candidate is located but fails to parse, the trial
fails with the distinct malformed-JSON condition. -/
theorem extract_json_no_json_distinct_conditions :
    (∀ text : String, '{' ∉ text.toList →
       _extract_json text = Except.error ExtractError.noJsonFound) ∧
    _extract_json "I cannot answer this." = Except.error ExtractError.noJsonFound ∧
    (∀ (env : Env) (ev : EvaluatorBase) (msgs : List MsgPart) (st : ActivePersona × Nat)
       (resp : String) (q : ActivePersona) (d : Nat) (cand m : String),
       ActivePersona.interact env (trialPersona ev st.1) st.2 msgs = (Except.ok resp, q, d) →
       _extract_json resp = Except.ok cand →
       env.json_loads cand = Except.error m →
       (runTrial env ev msgs st).1 = Except.error (TrialError.malformedJson m)) ∧
    (∀ m : String, TrialError.noJsonFound ≠ TrialError.malformedJson m) := by
  refine ⟨?_, rfl, ?_, ?_⟩
  · intro text h
    simp only [_extract_json, suffixFromBrace_eq_none text.toList h]
  · intro env ev msgs st resp q d cand m hi he hl
    simp only [runTrial]
    rw [hi]
    dsimp only
    rw [he]
    dsimp only
    rw [hl]
  · intro m h
    cases h

/-- C8 witness: the no-brace part applied at a concrete brace-free
text, and the malformed-candidate part applied at the broken-JSON
backend stub. -/
theorem extract_json_no_json_distinct_conditions_witness :
    _extract_json "no braces at all" = Except.error ExtractError.noJsonFound ∧
    (runTrial envBrokenJson evalDefault [MsgPart.textPart "Rate the UI."] (persona0, 0)).1 =
      Except.error (TrialError.malformedJson "Expecting value: line 1 column 1 (char 0)") :=
  ⟨extract_json_no_json_distinct_conditions.1 "no braces at all" (by decide),
   extract_json_no_json_distinct_conditions.2.2.1 envBrokenJson evalDefault
     [MsgPart.textPart "Rate the UI."] (persona0, 0) "\x7b broken \x7d"
     (ActivePersona.interact envBrokenJson
        (trialPersona evalDefault (persona0, 0).1) (persona0, 0).2
        [MsgPart.textPart "Rate the UI."]).2.1
     (ActivePersona.interact envBrokenJson
        (trialPersona evalDefault (persona0, 0).1) (persona0, 0).2
        [MsgPart.textPart "Rate the UI."]).2.2
     "\x7b broken \x7d" "Expecting value: line 1 column 1 (char 0)" rfl rfl rfl⟩

theorem evalLoop_succ_ok (env : Env) (ev : EvaluatorBase) (msgs : List MsgPart)
    (tmpl : JsonObj) (st : ActivePersona × Nat) (obj : JsonObj) (q : ActivePersona) (d : Nat)
    (h : runTrial env ev msgs st = (Except.ok obj, q, d)) (n : Nat) :
    evalLoop env ev msgs tmpl (n + 1) st =
      (dictUpdate tmpl obj :: (evalLoop env ev msgs tmpl n (q, d)).1,
       (evalLoop env ev msgs tmpl n (q, d)).2) := by
  simp only [evalLoop]
  rw [h]

theorem evalLoop_length_le (env : Env) (ev : EvaluatorBase) (msgs : List MsgPart)
    (tmpl : JsonObj) : ∀ (n : Nat) (st : ActivePersona × Nat),
    (evalLoop env ev msgs tmpl n st).1.length ≤ n := by
  intro n
  induction n with
  | zero => intro st; simp [evalLoop]
  | succ n ih =>
    intro st
    rcases hrt : runTrial env ev msgs st with ⟨res, p', c'⟩
    cases res with
    | error e =>
      simp only [evalLoop]
      rw [hrt]
      dsimp only
      exact Nat.le_succ_of_le (ih (p', c'))
    | ok obj =>
      simp only [evalLoop]
      rw [hrt]
      dsimp only
      simpa using ih (p', c')

theorem clampIterations_eq_max (its : Int) : clampIterations its = max its.toNat 1 := by
  unfold clampIterations
  split <;> omega

theorem processParts_prepared_ok (env : Env) (ev : EvaluatorBase) (tw : Option Unit)
    (hFs : ∀ path, env.os_path_exists path = true → (env.readB64 path).isSome = true) :
    ∃ pms, processParts env tw (EvaluatorBase._prepare_evaluation_messages env ev) =
      Except.ok pms := by
  have himg : ∀ l : List String, (∀ x ∈ l, env.os_path_exists x = true) →
      ∃ pms, processParts env tw (l.map MsgPart.imagePart) = Except.ok pms := by
    intro l
    induction l with
    | nil => intro _; exact ⟨[], rfl⟩
    | cons x l ih =>
      intro hall
      obtain ⟨pms, hpms⟩ := ih (fun y hy => hall y (List.mem_cons_of_mem _ hy))
      have hx := hFs x (hall x (List.mem_cons_self x l))
      rcases hb : env.readB64 x with _ | b
      · rw [hb] at hx; simp at hx
      · refine ⟨ProcessedPart.imageUrl ("data:image/jpeg;base64," ++ b) :: pms, ?_⟩
        simp [processParts, processPart, hb, hpms]
  obtain ⟨pms, hpms⟩ := himg (ev.images_paths.filter env.os_path_exists)
    (fun x hx => (List.mem_filter.mp hx).2)
  refine ⟨ProcessedPart.text ev.evaluation_prompt :: pms, ?_⟩
  simp [EvaluatorBase._prepare_evaluation_messages, processParts, processPart, hpms]

theorem runTrial_good_ok (env : Env) (ev : EvaluatorBase)
    (hFs : ∀ path, env.os_path_exists path = true → (env.readB64 path).isSome = true)
    (hPre : ev._preprocess_entry = fun o => Except.ok o)
    (hB : ∀ (n : Nat) (conv : List Turn), ∃ s cand obj,
       env.invoke n conv = Except.ok s ∧ _extract_json s = Except.ok cand ∧
       env.json_loads cand = Except.ok obj)
    (st : ActivePersona × Nat) :
    ∃ obj q d, runTrial env ev (EvaluatorBase._prepare_evaluation_messages env ev) st =
      (Except.ok obj, q, d) := by
  obtain ⟨pms, hpms⟩ :=
    processParts_prepared_ok env ev (trialPersona ev st.1).whisper_transcriber hFs
  obtain ⟨s, cand, obj, hs, hc, ho⟩ := hB st.2
    ((trialPersona ev st.1).message_history ++
      [{ role := Role.user, content := TurnContent.parts pms }])
  have hint : ActivePersona.interact env (trialPersona ev st.1) st.2
      (EvaluatorBase._prepare_evaluation_messages env ev) =
      (Except.ok s,
       { trialPersona ev st.1 with message_history :=
           ((trialPersona ev st.1).message_history ++
             [{ role := Role.user, content := TurnContent.parts pms }]) ++
           [{ role := Role.assistant, content := TurnContent.str (some s) }] },
       st.2 + 1) := by
    simp only [ActivePersona.interact, hpms]
    rw [hs]
  refine ⟨obj,
    { trialPersona ev st.1 with message_history :=
        ((trialPersona ev st.1).message_history ++
          [{ role := Role.user, content := TurnContent.parts pms }]) ++
        [{ role := Role.assistant, content := TurnContent.str (some s) }] },
    st.2 + 1, ?_⟩
  simp only [runTrial]
  rw [hint]
  dsimp only
  rw [hc]
  dsimp only
  rw [ho]
  dsimp only
  rw [hPre]

theorem evalLoop_good_length (env : Env) (ev : EvaluatorBase) (tmpl : JsonObj)
    (hFs : ∀ path, env.os_path_exists path = true → (env.readB64 path).isSome = true)
    (hPre : ev._preprocess_entry = fun o => Except.ok o)
    (hB : ∀ (n : Nat) (conv : List Turn), ∃ s cand obj,
       env.invoke n conv = Except.ok s ∧ _extract_json s = Except.ok cand ∧
       env.json_loads cand = Except.ok obj) :
    ∀ (n : Nat) (st : ActivePersona × Nat),
      (evalLoop env ev (EvaluatorBase._prepare_evaluation_messages env ev) tmpl n st).1.length =
        n := by
  intro n
  induction n with
  | zero => intro st; rfl
  | succ n ih =>
    intro st
    obtain ⟨obj, q, d, hok⟩ := runTrial_good_ok env ev hFs hPre hB st
    rw [evalLoop_succ_ok env ev _ tmpl st obj q d hok n]
    simp [ih]

/-- C4: the number of records returned by evaluate is at most
max(iterations, 1), an iteration count below 1 behaves exactly like an
iteration count of 1 (silent clamping, not an error), and when the
backend always answers with text containing a well-formed extractable
JSON object (with consistent image files and the default preprocessing
hook) the number of records equals the clamped iteration count. -/
theorem evaluate_iterations_clamped :
    ∀ (env : Env) (ev : EvaluatorBase) (p : ActivePersona) (c : Nat) (its : Int),
      (EvaluatorBase.evaluate env ev p c its).1.length ≤ max its.toNat 1 ∧
      (its < 1 → EvaluatorBase.evaluate env ev p c its = EvaluatorBase.evaluate env ev p c 1) ∧
      ((∀ path, env.os_path_exists path = true → (env.readB64 path).isSome = true) →
       ev._preprocess_entry = (fun o => Except.ok o) →
       (∀ (n : Nat) (conv : List Turn), ∃ s cand obj,
          env.invoke n conv = Except.ok s ∧ _extract_json s = Except.ok cand ∧
          env.json_loads cand = Except.ok obj) →
       (EvaluatorBase.evaluate env ev p c its).1.length = clampIterations its) := by
  intro env ev p c its
  refine ⟨?_, ?_, ?_⟩
  · have h := evalLoop_length_le env ev (EvaluatorBase._prepare_evaluation_messages env ev)
      (entry_template env p) (clampIterations its) (p, c)
    exact clampIterations_eq_max its ▸ h
  · intro h
    unfold EvaluatorBase.evaluate
    rw [show clampIterations its = clampIterations 1 from by
      unfold clampIterations
      rw [if_pos h, if_neg (by omega)]
      rfl]
  · intro hFs hPre hB
    exact evalLoop_good_length env ev (entry_template env p) hFs hPre hB
      (clampIterations its) (p, c)

/-- C4 witness: the theorem applied at concrete inputs, once with an
always-well-formed backend stub and two iterations, once with an
iteration count of zero. -/
theorem evaluate_iterations_clamped_witness :
    (EvaluatorBase.evaluate envGoodJson evalDefault persona0 0 2).1.length =
      clampIterations 2 ∧
    EvaluatorBase.evaluate envGoodJson evalDefault persona0 0 0 =
      EvaluatorBase.evaluate envGoodJson evalDefault persona0 0 1 :=
  ⟨(evaluate_iterations_clamped envGoodJson evalDefault persona0 0 2).2.2
     (fun path h => by simp [envGoodJson, envBase] at h)
     rfl
     (fun n conv => ⟨"\x7b\"q01\": 5\x7d", "\x7b\"q01\": 5\x7d", [("q01", JsonValue.num 5)],
       rfl, rfl, rfl⟩),
   (evaluate_iterations_clamped envGoodJson evalDefault persona0 0 0).2.1 (by decide)⟩


theorem dictGet_cons (kv : String × JsonValue) (d : JsonObj) (k : String) :
    dictGet (kv :: d) k = if kv.1 = k then some kv.2 else dictGet d k := by
  by_cases h : kv.1 = k
  · rw [dictGet, List.find?_cons_of_pos _ (by simp [h]), if_pos h]
    rfl
  · rw [dictGet, List.find?_cons_of_neg _ (by simp [h]), if_neg h]
    rfl

theorem dictInsert_cons_hit (kv : String × JsonValue) (d : JsonObj) (k : String)
    (v : JsonValue) (h : kv.1 = k) :
    dictInsert (kv :: d) k v =
      (k, v) :: d.map (fun p => if p.1 == k then (k, v) else p) := by
  rw [dictInsert, if_pos (show ((kv :: d).any fun p => p.1 == k) = true by
    simp [List.any_cons, h])]
  rw [List.map_cons, if_pos (show (kv.1 == k) = true by simp [h])]

theorem dictInsert_cons_miss (kv : String × JsonValue) (d : JsonObj) (k : String)
    (v : JsonValue) (h : ¬ kv.1 = k) :
    dictInsert (kv :: d) k v = kv :: dictInsert d k v := by
  rw [dictInsert, dictInsert]
  have hany : ((kv :: d).any fun p => p.1 == k) = (d.any fun p => p.1 == k) := by
    simp [List.any_cons, h]
  rw [hany]
  cases ha : d.any (fun p => p.1 == k) with
  | false => simp only [Bool.false_eq_true, if_false, List.cons_append]
  | true =>
    simp only [if_true, List.map_cons]
    rw [if_neg (show ¬ (kv.1 == k) = true by simp [h])]

theorem dictGet_map_insertFun (d : JsonObj) (k k1 : String) (v : JsonValue)
    (hne : ¬ k = k1) :
    dictGet (d.map (fun p => if p.1 == k then (k, v) else p)) k1 = dictGet d k1 := by
  induction d with
  | nil => rfl
  | cons kv d ih =>
    rw [List.map_cons]
    by_cases h : kv.1 = k
    · rw [if_pos (show (kv.1 == k) = true by simp [h])]
      rw [dictGet_cons, dictGet_cons, if_neg hne, if_neg (show ¬ kv.1 = k1 by rw [h]; exact hne)]
      exact ih
    · rw [if_neg (show ¬ (kv.1 == k) = true by simp [h])]
      rw [dictGet_cons, dictGet_cons]
      by_cases h2 : kv.1 = k1
      · rw [if_pos h2, if_pos h2]
      · rw [if_neg h2, if_neg h2]
        exact ih

theorem dictGet_insert_self (d : JsonObj) (k : String) (v : JsonValue) :
    dictGet (dictInsert d k v) k = some v := by
  induction d with
  | nil =>
    rw [show dictInsert [] k v = [(k, v)] by rw [dictInsert]; simp]
    rw [dictGet_cons, if_pos rfl]
  | cons kv d ih =>
    by_cases h : kv.1 = k
    · rw [dictInsert_cons_hit kv d k v h, dictGet_cons, if_pos rfl]
    · rw [dictInsert_cons_miss kv d k v h, dictGet_cons, if_neg h]
      exact ih

theorem dictGet_insert_ne (d : JsonObj) (k k1 : String) (v : JsonValue) (hne : ¬ k = k1) :
    dictGet (dictInsert d k v) k1 = dictGet d k1 := by
  induction d with
  | nil =>
    rw [show dictInsert [] k v = [(k, v)] by rw [dictInsert]; simp]
    rw [dictGet_cons, if_neg hne]
  | cons kv d ih =>
    by_cases h : kv.1 = k
    · rw [dictInsert_cons_hit kv d k v h, dictGet_cons, dictGet_cons, if_neg hne,
        if_neg (show ¬ kv.1 = k1 by rw [h]; exact hne)]
      exact dictGet_map_insertFun d k k1 v hne
    · rw [dictInsert_cons_miss kv d k v h, dictGet_cons, dictGet_cons]
      by_cases h2 : kv.1 = k1
      · rw [if_pos h2, if_pos h2]
      · rw [if_neg h2, if_neg h2]
        exact ih

theorem dictGet_eq_none_of_not_mem (d : JsonObj) (k : String)
    (h : k ∉ d.map Prod.fst) : dictGet d k = none := by
  induction d with
  | nil => rfl
  | cons kv d ih =>
    rw [List.map_cons, List.mem_cons, not_or] at h
    rw [dictGet_cons, if_neg (fun hh => h.1 hh.symm)]
    exact ih h.2

theorem dictGet_update (u : JsonObj) : ∀ (d : JsonObj) (k : String),
    (u.map Prod.fst).Nodup →
    dictGet (dictUpdate d u) k = (dictGet u k).orElse (fun _ => dictGet d k) := by
  induction u with
  | nil =>
    intro d k _
    rw [show dictUpdate d [] = d from rfl]
    cases hd : dictGet d k <;> simp [dictGet, Option.orElse]
  | cons kv u ih =>
    intro d k hnd
    rw [List.map_cons, List.nodup_cons] at hnd
    obtain ⟨hk0, hnd⟩ := hnd
    rw [show dictUpdate d (kv :: u) = dictUpdate (dictInsert d kv.1 kv.2) u from rfl]
    rw [ih (dictInsert d kv.1 kv.2) k hnd]
    rw [dictGet_cons]
    by_cases h : kv.1 = k
    · subst h
      rw [if_pos rfl, dictGet_eq_none_of_not_mem u kv.1 hk0]
      simp [Option.orElse, dictGet_insert_self]
    · rw [if_neg h]
      cases hg : dictGet u k with
      | none => simp [Option.orElse, hg, dictGet_insert_ne d kv.1 k kv.2 h]
      | some w => simp [Option.orElse, hg]

theorem evalLoop_mem_shape (env : Env) (ev : EvaluatorBase) (msgs : List MsgPart)
    (tmpl : JsonObj) : ∀ (n : Nat) (st : ActivePersona × Nat) (r : JsonObj),
    r ∈ (evalLoop env ev msgs tmpl n st).1 → ∃ obj, r = dictUpdate tmpl obj := by
  intro n
  induction n with
  | zero => intro st r hr; simp [evalLoop] at hr
  | succ n ih =>
    intro st r hr
    rcases hrt : runTrial env ev msgs st with ⟨res, p', c'⟩
    cases res with
    | error e =>
      simp only [evalLoop] at hr
      rw [hrt] at hr
      dsimp only at hr
      exact ih (p', c') r hr
    | ok obj =>
      simp only [evalLoop] at hr
      rw [hrt] at hr
      dsimp only at hr
      rcases List.mem_cons.mp hr with h | h
      · exact ⟨obj, h⟩
      · exact ih (p', c') r h

/-- C1 counterexample: with a backend object that contains a timestamp
key, the returned record carries the value from the object, not the
call-time value of the base record, refuting the claim that the
timestamp and persona-identity fields always keep the base values. -/
theorem evaluate_timestamp_overwritten :
    (EvaluatorBase.evaluate envTimestampHack evalDefault persona0 0 1).1 =
      [[("timestamp", JsonValue.str "HACK"),
        ("persona_name", JsonValue.str "Alice"),
        ("model", JsonValue.str "gpt-test")]] ∧
    dictGet (entry_template envTimestampHack persona0) "timestamp" =
      some (JsonValue.str envTimestampHack.now) ∧
    "HACK" ≠ envTimestampHack.now :=
  ⟨rfl, rfl, by decide⟩

/-- C1 amended: every record of a successful trial is the
parsed-and-preprocessed object merged over the base record
`timestamp/persona_name/model` by dict update, in which object fields
win on every key collision, including the timestamp and persona-identity
keys (the base values survive only for keys absent from the object). -/
theorem evaluate_merge_object_wins :
    (∀ (env : Env) (ev : EvaluatorBase) (p : ActivePersona) (c : Nat) (its : Int)
       (r : JsonObj),
       r ∈ (EvaluatorBase.evaluate env ev p c its).1 →
       ∃ obj, r = dictUpdate (entry_template env p) obj) ∧
    (∀ (d u : JsonObj) (k : String), (u.map Prod.fst).Nodup →
       dictGet (dictUpdate d u) k = (dictGet u k).orElse (fun _ => dictGet d k)) := by
  constructor
  · intro env ev p c its r hr
    exact evalLoop_mem_shape env ev _ _ _ (p, c) r hr
  · intro d u k h
    exact dictGet_update u d k h

/-- C1 witness: the amended theorem applied at the concrete
timestamp-redefining run and at the concrete merge it produces. -/
theorem evaluate_merge_object_wins_witness :
    (∃ obj,
       [("timestamp", JsonValue.str "HACK"),
        ("persona_name", JsonValue.str "Alice"),
        ("model", JsonValue.str "gpt-test")] =
         dictUpdate (entry_template envTimestampHack persona0) obj) ∧
    dictGet (dictUpdate (entry_template envTimestampHack persona0)
        [("timestamp", JsonValue.str "HACK")]) "timestamp" =
      (dictGet [("timestamp", JsonValue.str "HACK")] "timestamp").orElse
        (fun _ => dictGet (entry_template envTimestampHack persona0) "timestamp") :=
  ⟨evaluate_merge_object_wins.1 envTimestampHack evalDefault persona0 0 1 _
     (List.mem_singleton.mpr rfl),
   evaluate_merge_object_wins.2 (entry_template envTimestampHack persona0)
     [("timestamp", JsonValue.str "HACK")] "timestamp" (by simp)⟩

theorem depthAt_cons (c : Char) (cs : List Char) :
    depthAt (c :: cs) = braceDelta c + depthAt cs := by
  simp [depthAt, List.map_cons, List.sum_cons]

theorem find?_comp_map {α β : Type} (f : α → β) (p : β → Bool) (l : List α) :
    (l.map f).find? p = (l.find? (fun a => p (f a))).map f := by
  induction l with
  | nil => rfl
  | cons a l ih =>
    rw [List.map_cons]
    cases hp : p (f a) with
    | false =>
      rw [List.find?_cons_of_neg _ (by simp [hp]), List.find?_cons_of_neg _ (by simp [hp]), ih]
    | true =>
      rw [List.find?_cons_of_pos _ (by simp [hp]), List.find?_cons_of_pos _ (by simp [hp])]
      rfl

theorem find?_range_succ_shift (p : Nat → Bool) (m : Nat) (h0 : p 0 = false) :
    (List.range (m + 1)).find? p =
      ((List.range m).find? (fun n => p (n + 1))).map (fun n => n + 1) := by
  rw [List.range_succ_eq_map]
  rw [List.find?_cons_of_neg _ (by simp [h0])]
  rw [find?_comp_map]

theorem shift_pred (d d2 : Nat) (c : Char) (rest : List Char)
    (hdep : (d : Int) + braceDelta c = (d2 : Int)) (hd2 : 1 ≤ d2) :
    (fun n => decide (0 < n + 1 ∧ (d : Int) + depthAt ((c :: rest).take (n + 1)) = 0)) =
      (fun n => decide (0 < n ∧ (d2 : Int) + depthAt (rest.take n) = 0)) := by
  funext n
  rw [List.take_succ_cons, depthAt_cons, ← add_assoc, hdep]
  cases n with
  | zero =>
    rw [List.take_zero, show depthAt ([] : List Char) = 0 from rfl]
    apply decide_eq_decide.mpr
    omega
  | succ m =>
    apply decide_eq_decide.mpr
    constructor
    · rintro ⟨-, h⟩
      exact ⟨Nat.succ_pos m, h⟩
    · rintro ⟨-, h⟩
      exact ⟨Nat.succ_pos (m + 1), h⟩

theorem braceScan_spec : ∀ (cs : List Char) (d : Nat) (acc : List Char), 1 ≤ d →
    braceScan cs d acc =
      match (List.range (cs.length + 1)).find?
          (fun n => decide (0 < n ∧ (d : Int) + depthAt (cs.take n) = 0)) with
      | some n => some (acc ++ cs.take n)
      | none => none := by
  intro cs
  induction cs with
  | nil =>
    intro d acc hd
    rw [braceScan]
    rw [show List.range (List.length ([] : List Char) + 1) = [0] from rfl]
    rw [List.find?_cons_of_neg _ (by simp)]
    rfl
  | cons c rest ih =>
    intro d acc hd
    rw [List.length_cons]
    rw [find?_range_succ_shift _ _ (by simp)]
    by_cases hc : c = '{'
    · subst hc
      rw [show braceScan ('{' :: rest) d acc = braceScan rest (d + 1) (acc ++ ['{']) from rfl]
      rw [ih (d + 1) (acc ++ ['{']) (by omega)]
      rw [shift_pred d (d + 1) '{' rest (by rw [show braceDelta '{' = 1 from rfl]; omega)
        (by omega)]
      cases hf : (List.range (rest.length + 1)).find?
          (fun n => decide (0 < n ∧ ((d + 1 : Nat) : Int) + depthAt (rest.take n) = 0)) with
      | none => rfl
      | some n => simp [List.take_succ_cons, List.append_assoc]
    · by_cases hc2 : c = '}'
      · subst hc2
        cases d with
        | zero => exact absurd hd (by omega)
        | succ d1 =>
          cases d1 with
          | zero =>
            rw [show braceScan ('}' :: rest) 1 acc = some (acc ++ ['}']) from rfl]
            rw [show List.range (rest.length + 1) =
              0 :: List.map Nat.succ (List.range rest.length) from List.range_succ_eq_map _]
            rw [List.find?_cons_of_pos _ (by
              simp [List.take_succ_cons, depthAt_cons, show braceDelta '}' = -1 from rfl,
                List.take_zero, show depthAt ([] : List Char) = 0 from rfl])]
            simp [List.take_succ_cons]
          | succ d2 =>
            rw [show braceScan ('}' :: rest) (d2 + 2) acc =
              braceScan rest (d2 + 1) (acc ++ ['}']) from rfl]
            rw [ih (d2 + 1) (acc ++ ['}']) (by omega)]
            rw [shift_pred (d2 + 2) (d2 + 1) '}' rest
              (by rw [show braceDelta '}' = -1 from rfl]; omega) (by omega)]
            cases hf : (List.range (rest.length + 1)).find?
                (fun n => decide (0 < n ∧ ((d2 + 1 : Nat) : Int) + depthAt (rest.take n) = 0)) with
            | none => rfl
            | some n => simp [List.take_succ_cons, List.append_assoc]
      · rw [braceScan.eq_def]
        dsimp only
        rw [if_neg hc, if_neg hc2]
        rw [ih d (acc ++ [c]) hd]
        rw [shift_pred d d c rest (by
          rw [show braceDelta c = 0 from by rw [braceDelta, if_neg hc, if_neg hc2]]; omega) hd]
        cases hf : (List.range (rest.length + 1)).find?
            (fun n => decide (0 < n ∧ (d : Int) + depthAt (rest.take n) = 0)) with
        | none => rfl
        | some n => simp [List.take_succ_cons, List.append_assoc]

theorem suffixFromBrace_some (l cs : List Char) (h : suffixFromBrace l = some cs) :
    ∃ rest, cs = '{' :: rest := by
  induction l with
  | nil => simp [suffixFromBrace] at h
  | cons c l ih =>
    rw [suffixFromBrace] at h
    by_cases hc : c = '{'
    · rw [if_pos hc] at h
      refine ⟨l, ?_⟩
      injection h with h2
      rw [← h2, hc]
    · rw [if_neg hc] at h
      exact ih h

theorem spec_shift_pred (rest : List Char) :
    (fun n => decide (0 < n + 1 ∧ depthAt (('{' :: rest).take (n + 1)) = 0)) =
      (fun n => decide (0 < n ∧ ((1 : Nat) : Int) + depthAt (rest.take n) = 0)) := by
  funext n
  rw [List.take_succ_cons, depthAt_cons, show braceDelta '{' = 1 from rfl]
  cases n with
  | zero =>
    rw [List.take_zero, show depthAt ([] : List Char) = 0 from rfl]
    apply decide_eq_decide.mpr
    omega
  | succ m =>
    apply decide_eq_decide.mpr
    constructor
    · rintro ⟨-, h⟩
      exact ⟨Nat.succ_pos m, by omega⟩
    · rintro ⟨-, h⟩
      exact ⟨Nat.succ_pos (m + 1), by omega⟩

/-- C7: JSON extraction returns the substring of the raw text from the
first opening brace through the matching closing brace found by
brace-depth counting: on every input the code extraction agrees with
the spec-modelled depth-counter extraction, and on the two concrete
texts of the spec it returns exactly the embedded object (including the
full nested object, not a truncated substring). -/
theorem extract_json_brace_depth_spec :
    (∀ text : String, _extract_json text = extract_json_spec text) ∧
    _extract_json "Here is my answer:\n\x7b\"q01\": 5, \"q02\": 3\x7d\nThanks!" =
      Except.ok "\x7b\"q01\": 5, \"q02\": 3\x7d" ∧
    _extract_json "\x7b\"a\": \x7b\"b\": 1\x7d\x7d" =
      Except.ok "\x7b\"a\": \x7b\"b\": 1\x7d\x7d" := by
  refine ⟨?_, rfl, rfl⟩
  intro text
  rw [_extract_json, extract_json_spec]
  cases hs : suffixFromBrace text.toList with
  | none => rfl
  | some cs =>
    obtain ⟨rest, hrest⟩ := suffixFromBrace_some _ _ hs
    subst hrest
    dsimp only
    rw [show braceScan ('{' :: rest) 0 [] = braceScan rest 1 ['{'] from rfl]
    rw [braceScan_spec rest 1 ['{'] (by omega)]
    rw [specCandidateLen]
    rw [List.length_cons]
    rw [find?_range_succ_shift
      (fun n => decide (0 < n ∧ depthAt (List.take n ('{' :: rest)) = 0))
      (rest.length + 1) (by simp)]
    rw [spec_shift_pred]
    cases hf : (List.range (rest.length + 1)).find?
        (fun n => decide (0 < n ∧ ((1 : Nat) : Int) + depthAt (rest.take n) = 0)) with
    | none => rfl
    | some n => simp [List.take_succ_cons]
